import Mathlib

/-!
Verification of the shandu research pipeline against its specification.

The Python source is shallowly embedded: Python dicts become insertion-ordered
association lists (matching CPython dict iteration order), floats that only
carry timestamps and scores become rationals, and network effects become
explicit oracles plus an effect trace.  Each definition mirrors one Python
function; the file ends with the theorems that settle the specification
claims.
-/

namespace Shandu

/-! ### Association lists (model of Python dict)

Python dicts preserve insertion order; assignment to a fresh key appends,
assignment to an existing key updates in place.  `alookup` is `d.get(k)`,
`aset` is `d[k] = v`. -/

def alookup {α β : Type} [DecidableEq α] : List (α × β) → α → Option β
  | [], _ => none
  | (k, v) :: rest, k' => if k = k' then some v else alookup rest k'

def aset {α β : Type} [DecidableEq α] : List (α × β) → α → β → List (α × β)
  | [], k, v => [(k, v)]
  | (k', v') :: rest, k, v =>
      if k' = k then (k', v) :: rest else (k', v') :: aset rest k v

/-- Values stored in Python metadata dicts (strings or integers suffice here). -/
inductive MVal : Type
  | s (v : String)
  | n (v : Nat)
  deriving DecidableEq, Repr

/-! ### CitationRegistry (src/shandu/agents/utils/citation_registry.py) -/

structure CitationRegistry : Type where
  citations : List (Nat × List (String × MVal))
  id_to_url : List (Nat × String)
  url_to_id : List (String × Nat)
  next_id : Nat
  citation_contexts : List (Nat × List String)
  deriving DecidableEq, Repr

/-- `CitationRegistry.__init__`. -/
def CitationRegistry.fresh : CitationRegistry :=
  { citations := [], id_to_url := [], url_to_id := [], next_id := 1
    citation_contexts := [] }

/-- `CitationRegistry.register_citation`.  Returns the updated registry and
the citation id. -/
def register_citation (reg : CitationRegistry) (source_url : String)
    (context : String) : CitationRegistry × Nat :=
  match alookup reg.url_to_id source_url with
  | some citation_id =>
      let existing := (alookup reg.citation_contexts citation_id).getD []
      let reg' :=
        if context ≠ "" ∧ context ∉ existing then
          { reg with
            citation_contexts :=
              aset reg.citation_contexts citation_id (existing ++ [context]) }
        else reg
      (reg', citation_id)
  | none =>
      let citation_id := reg.next_id
      let reg' :=
        { reg with
          citations := aset reg.citations citation_id
            [("url", MVal.s source_url), ("id", MVal.n citation_id)]
          id_to_url := aset reg.id_to_url citation_id source_url
          url_to_id := aset reg.url_to_id source_url citation_id
          citation_contexts :=
            if context ≠ "" then
              aset reg.citation_contexts citation_id [context]
            else reg.citation_contexts
          next_id := reg.next_id + 1 }
      (reg', citation_id)

/-- Insertion of a value into a list sorted ascending (helper for `sorted`). -/
def insSorted (x : Nat) : List Nat → List Nat
  | [] => [x]
  | y :: ys => if x ≤ y then x :: y :: ys else y :: insSorted x ys

/-- Python `sorted` on a list of ints (insertion sort; stable and ascending). -/
def sortNat (l : List Nat) : List Nat := l.foldr insSorted []

/-- `CitationRegistry.get_all_citation_urls`:
`[self.id_to_url[cid] for cid in sorted(self.id_to_url.keys())]`. -/
def get_all_citation_urls (reg : CitationRegistry) : List String :=
  (sortNat (reg.id_to_url.map Prod.fst)).map
    (fun cid => (alookup reg.id_to_url cid).getD "")

/-- `CitationRegistry.bulk_register_sources`. -/
def bulk_register_sources (reg : CitationRegistry) : List String → CitationRegistry
  | [] => reg
  | url :: rest =>
      let reg' :=
        if alookup reg.url_to_id url = none then (register_citation reg url "").1
        else reg
      bulk_register_sources reg' rest

/-- `CitationRegistry.update_citation_metadata`: `self.citations[cid].update(metadata)`
guarded by key membership. -/
def update_citation_metadata (reg : CitationRegistry) (citation_id : Nat)
    (metadata : List (String × MVal)) : CitationRegistry :=
  match alookup reg.citations citation_id with
  | some entry =>
      { reg with
        citations :=
          aset reg.citations citation_id
            (metadata.foldl (fun d p => aset d p.1 p.2) entry) }
  | none => reg

/-- Digits of a citation marker folded into the integer they denote. -/
def digitsToNat (ds : List Char) : Nat :=
  ds.foldl (fun n c => n * 10 + (c.toNat - '0'.toNat)) 0

/-- Scanner for the regex `\[(\d+)\]` used by `validate_citations` and
`get_citations_for_report`: leftmost, non-overlapping matches of a bracketed
digit run.  (The regex never backtracks usefully here: after a maximal digit
run either `]` follows or that match attempt fails.  Rescanning from the
character after `[` is equivalent to resuming after the consumed match,
because a consumed match `digits ]` contains no `[` where a new match could
begin.) -/
def extractCitationIds : List Char → List Nat
  | [] => []
  | c :: rest =>
      if c = '[' then
        let ds := rest.takeWhile Char.isDigit
        match ds, rest.dropWhile Char.isDigit with
        | _ :: _, ']' :: _ => digitsToNat ds :: extractCitationIds rest
        | _, _ => extractCitationIds rest
      else extractCitationIds rest

/-- Result dict of `CitationRegistry.validate_citations`. -/
structure ValidationResult : Type where
  valid : Bool
  invalid_citations : Finset Nat
  missing_citations : Finset Nat
  used_citations : Finset Nat
  out_of_range_citations : Finset Nat
  max_valid_id : Nat
  deriving DecidableEq

/-- `CitationRegistry.validate_citations`. -/
def validate_citations (reg : CitationRegistry) (text : String) : ValidationResult :=
  let used_citations : Finset Nat := (extractCitationIds text.data).toFinset
  let registry_ids : Finset Nat := (reg.citations.map Prod.fst).toFinset
  let invalid_citations := used_citations \ registry_ids
  let missing_citations := registry_ids \ used_citations
  let max_id := (reg.citations.map Prod.fst).foldr max 0
  let out_of_range_citations := used_citations.filter (fun cid => max_id < cid)
  let invalid' := invalid_citations ∪ out_of_range_citations
  { valid := invalid'.card = 0
    invalid_citations := invalid'
    missing_citations := missing_citations
    used_citations := used_citations
    out_of_range_citations := out_of_range_citations
    max_valid_id := max_id }

/-- Operations a client can perform on a registry (closed under the claim C10). -/
inductive RegistryOp : Type
  | reg (url context : String)
  | bulk (urls : List String)
  | upd (citation_id : Nat) (metadata : List (String × MVal))

def applyRegistryOp (reg : CitationRegistry) : RegistryOp → CitationRegistry
  | .reg url ctx => (register_citation reg url ctx).1
  | .bulk urls => bulk_register_sources reg urls
  | .upd cid metadata => update_citation_metadata reg cid metadata

def applyRegistryOps (reg : CitationRegistry) (ops : List RegistryOp) : CitationRegistry :=
  ops.foldl applyRegistryOp reg

/-- Internal well-formedness of a `CitationRegistry`: `url_to_id` is the
pointwise swap of `id_to_url`, the ids are exactly `1, ..., next_id - 1` in
registration order, and no URL occurs twice. -/
def RegInv (r : CitationRegistry) : Prop :=
  r.url_to_id = r.id_to_url.map (fun p => (p.2, p.1)) ∧
  r.id_to_url.map Prod.fst = List.range' 1 (r.next_id - 1) ∧
  (r.id_to_url.map Prod.snd).Nodup ∧
  1 ≤ r.next_id

/-! ### SearchResult and SearchCache (src/shandu/search/search.py)

Timestamps (`time.time()` floats) are modelled as integers; only their
ordering and differences matter to the code. -/

structure SearchResult : Type where
  title : String
  url : String
  snippet : String
  source : String
  date : Option String
  metadata : List (String × MVal)
  deriving DecidableEq, Repr

/-- `SearchResult.__init__` with its truthiness normalization (`url` may be
`None`, falsy fields are replaced by placeholders). -/
def mkSearchResult (title : String) (url : Option String) (snippet source : String)
    (date : Option String) (metadata : List (String × MVal)) :
    SearchResult :=
  { title := if title = "" then "Untitled" else title
    url := url.getD ""
    snippet := snippet
    source := if source = "" then "Unknown" else source
    date := date
    metadata := metadata }

/-- One cache file of `SearchCache`: `{"timestamp": ..., "results": ...}`.
An absent or unreadable file is the `none` case of the `entry` argument. -/
structure SearchCacheEntry : Type where
  timestamp : Int
  results : List SearchResult
  deriving DecidableEq

/-- `SearchCache.get`: serve the payload only while
`time.time() - data["timestamp"] <= self.ttl`. -/
def searchCache_get (entry : Option SearchCacheEntry) (ttl now : Int) :
    Option (List SearchResult) :=
  match entry with
  | none => none
  | some data => if now - data.timestamp ≤ ttl then some data.results else none

/-! ### ScrapedContent and ScraperCache (src/shandu/scraper/scraper.py) -/

structure ScrapedContent : Type where
  url : String
  title : String
  text : String
  html : String
  metadata : List (String × MVal)
  timestamp : Int
  content_type : String
  status_code : Option Nat
  error : Option String
  deriving DecidableEq, Repr

/-- `ScrapedContent.is_successful`: no error and non-blank text. -/
def ScrapedContent.is_successful (c : ScrapedContent) : Bool :=
  c.error = none ∧ c.text.trim ≠ ""

/-- `ScrapedContent.from_error` (the unmentioned dataclass fields keep their
defaults: `timestamp` is the construction time, modelled as 0). -/
def ScrapedContent.from_error (url error : String) : ScrapedContent :=
  { url := url, title := "Error", text := "", html := "", metadata := []
    timestamp := 0, content_type := "text/html", status_code := none
    error := some error }

/-- One cache file of `ScraperCache`: `{"timestamp": ..., "content": ...}`.
The required-field check of `ScraperCache.get` always passes in this typed
model, since a decoded `ScrapedContent` has all its fields by construction. -/
structure ScraperCacheEntry : Type where
  timestamp : Int
  content : ScrapedContent
  deriving DecidableEq

/-- `ScraperCache.get`. -/
def scraperCache_get (entry : Option ScraperCacheEntry) (ttl now : Int) :
    Option ScrapedContent :=
  match entry with
  | none => none
  | some data => if now - data.timestamp ≤ ttl then some data.content else none

/-! ### UnifiedSearcher.merge_results, strategy "alternate"

The code groups results by engine (`sources` dict, insertion-ordered) and
then interleaves the groups round-robin.  No deduplication of any kind is
performed. -/

/-- The `sources` dict built by the `alternate` branch:
`if r.source not in sources: sources[r.source] = []` followed by
`sources[r.source].append(r)`. -/
def groupBySource (results : List SearchResult) : List (String × List SearchResult) :=
  results.foldl
    (fun groups r => aset groups r.source ((alookup groups r.source).getD [] ++ [r]))
    []

/-- `merge_results(results, "alternate")`. -/
def merge_results_alternate (results : List SearchResult) : List SearchResult :=
  if results = [] then []
  else
    let sources := groupBySource results
    let max_len :=
      if sources = [] then 0 else (sources.map (fun g => g.2.length)).foldr max 0
    ((List.range max_len).map (fun i => sources.filterMap (fun g => g.2[i]?))).flatten

/-! ### CitationManager (src/shandu/agents/utils/citation_manager.py)

Floats (`access_time`, `reliability_score`, `confidence`) are modelled as
rationals.  Python sets are modelled as insertion-ordered duplicate-free
lists (`setAdd`); set equality is list equality here because all operations
preserve the duplicate-free property. -/

/-- `set.add` in the insertion-ordered model of a Python set. -/
def setAdd (l : List String) (x : String) : List String :=
  if x ∈ l then l else l ++ [x]

/-- Characters matched by the regex class `\s` (ASCII range; the inputs the
pipeline feeds through normalization are ASCII-like text). -/
def isPySpace (c : Char) : Bool :=
  c = ' ' || c = '\t' || c = '\n' || c = '\r' || c = '\x0b' || c = '\x0c'

/-- `re.sub(r"\s+", " ", text)`: each maximal whitespace run becomes one
space.  The flag records whether the previous character was whitespace. -/
def collapseWsAux : Bool → List Char → List Char
  | _, [] => []
  | prevSpace, c :: cs =>
      if isPySpace c then
        if prevSpace then collapseWsAux true cs
        else ' ' :: collapseWsAux true cs
      else c :: collapseWsAux false cs

/-- Python `str.strip()` on a character list. -/
def pyStrip (l : List Char) : List Char :=
  ((l.dropWhile isPySpace).reverse.dropWhile isPySpace).reverse

/-- The characters removed by `re.sub` with the punctuation class of
`_normalize_text` (comma, period, semicolon, colon, bang, question mark,
double quote, apostrophe). -/
def normPunct : List Char :=
  [',', '.', ';', ':', '!', '?', Char.ofNat 34, Char.ofNat 39]

/-- `CitationManager._normalize_text`: collapse whitespace, strip, lowercase
(ASCII), then delete punctuation. -/
def normalize_text (text : String) : String :=
  String.mk
    (((pyStrip (collapseWsAux false text.data)).map Char.toLower).filter
      (fun c => ¬ normPunct.contains c))

/-- `CitationManager._calculate_similarity`: character-set Jaccard similarity. -/
def calculate_similarity (text1 text2 : String) : ℚ :=
  if text1 = "" ∨ text2 = "" then 0
  else
    let set1 := text1.data.toFinset
    let set2 := text2.data.toFinset
    let intersection := (set1 ∩ set2).card
    let union := (set1 ∪ set2).card
    if 0 < union then (intersection : ℚ) / (union : ℚ) else 0

/-- Split a character list at the first occurrence of `://`, returning the
part before it (reversed accumulator unwound) and the part after it. -/
def splitSchemeAux (acc : List Char) : List Char → Option (List Char × List Char)
  | [] => none
  | c :: rest =>
      if c = ':' then
        match rest with
        | '/' :: '/' :: tail => some (acc.reverse, tail)
        | _ => splitSchemeAux (c :: acc) rest
      else splitSchemeAux (c :: acc) rest

/-- Simplified `urlparse(url).netloc`: the authority component after the
first `://`, ending at the first path, query or fragment delimiter (URLs in
this pipeline always carry an explicit scheme). -/
def netlocOf (url : String) : String :=
  match splitSchemeAux [] url.data with
  | none => ""
  | some sp =>
      String.mk (sp.2.takeWhile (fun c => c ≠ '/' && c ≠ '?' && c ≠ '#'))

/-- Simplified `urlparse(url).scheme` (lowercased, empty when no `://`). -/
def schemeOf (url : String) : String :=
  match splitSchemeAux [] url.data with
  | none => ""
  | some sp => String.mk (sp.1.map Char.toLower)

structure SourceInfo : Type where
  url : String
  title : String
  snippet : String
  source_type : String
  content_type : String
  access_time : ℚ
  domain : String
  reliability_score : ℚ
  extracted_content : String
  metadata : List (String × MVal)
  deriving DecidableEq, Repr

/-- `SourceInfo.__post_init__`: derive `domain` from the URL when absent. -/
def sourcePostInit (s : SourceInfo) : SourceInfo :=
  if s.domain = "" ∧ s.url ≠ "" then { s with domain := netlocOf s.url } else s

/-- `SourceInfo(...)` construction (dataclass defaults plus post-init);
arguments follow the dataclass field order. -/
def mkSourceInfo (url title snippet source_type content_type : String)
    (access_time : ℚ) (domain : String) (reliability_score : ℚ)
    (extracted_content : String) (metadata : List (String × MVal)) : SourceInfo :=
  sourcePostInit
    { url := url, title := title, snippet := snippet, source_type := source_type
      content_type := content_type, access_time := access_time, domain := domain
      reliability_score := reliability_score
      extracted_content := extracted_content, metadata := metadata }

/-- `SourceInfo(url=u)` with every other dataclass field defaulted. -/
def defaultSourceInfo (url : String) : SourceInfo :=
  mkSourceInfo url "" "" "" "" 0 "" 0 "" []

/-- Stand-in for `hashlib.md5(content).hexdigest()`.  The digest is used only
as an opaque, content-determined, non-empty dictionary key, so any injective
non-empty encoding models it faithfully. -/
def contentHash (content : String) : String :=
  "md5:" ++ toString content.length ++ ":" ++ content

structure Learning : Type where
  content : String
  sources : List String
  confidence : ℚ
  category : String
  context : String
  source_quotes : List String
  hash_id : String
  deriving DecidableEq, Repr

/-- `Learning.__post_init__`: fill in `hash_id` from the content when absent. -/
def learningPostInit (l : Learning) : Learning :=
  if l.hash_id = "" then { l with hash_id := contentHash l.content } else l

/-- `Learning(...)` construction (dataclass field order, then post-init). -/
def mkLearning (content : String) (sources : List String) (confidence : ℚ)
    (category context : String) (source_quotes : List String)
    (hash_id : String) : Learning :=
  learningPostInit
    { content := content, sources := sources, confidence := confidence
      category := category, context := context, source_quotes := source_quotes
      hash_id := hash_id }

structure CitationManager : Type where
  sources : List (String × SourceInfo)
  learnings : List (String × Learning)
  source_to_learnings : List (String × List String)
  citation_registry : CitationRegistry
  learning_categories : List String
  deriving DecidableEq

/-- `CitationManager.__init__`. -/
def CitationManager.fresh : CitationManager :=
  { sources := [], learnings := [], source_to_learnings := []
    citation_registry := CitationRegistry.fresh, learning_categories := [] }

/-- `CitationManager.add_source` (upsert by URL; `now` models `time.time()`). -/
def add_source (m : CitationManager) (source_info : SourceInfo) (now : ℚ) :
    CitationManager × String :=
  let url := source_info.url
  if alookup m.sources url = none then
    let si :=
      if source_info.access_time = 0 then { source_info with access_time := now }
      else source_info
    ({ m with
       source_to_learnings := aset m.source_to_learnings url []
       sources := aset m.sources url si }, url)
  else ({ m with sources := aset m.sources url source_info }, url)

/-- `CitationManager._find_similar_learning`: first exact normalized match in
insertion order, then first fuzzy match above the 0.8 threshold. -/
def find_similar_learning (m : CitationManager) (content : String) : Option String :=
  let normalized := normalize_text content
  match m.learnings.find? (fun p => normalize_text p.2.content == normalized) with
  | some p => some p.1
  | none =>
      match m.learnings.find?
          (fun p =>
            decide ((4 : ℚ) / 5 <
              calculate_similarity normalized (normalize_text p.2.content))) with
      | some p => some p.1
      | none => none

/-- Python substring test `needle in haystack`. -/
def pySubstr (needle : List Char) : List Char → Bool
  | [] => needle.isEmpty
  | c :: rest => needle.isPrefixOf (c :: rest) || pySubstr needle rest

/-- Append-if-absent, the body of the `for ... if x not in xs: xs.append(x)`
loops of the merge branch of `add_learning`. -/
def addMissing (xs : List String) (x : String) : List String :=
  if x ∈ xs then xs else xs ++ [x]

/-- One iteration of the source-merging loop in the merge branch of
`add_learning`: append an unseen source URL to the matched entry and, when
that URL already has a reverse-mapping entry, record the matched hash there. -/
def mergeSourcesStep (existing_hash : String)
    (acc : List String × List (String × List String)) (source_url : String) :
    List String × List (String × List String) :=
  if source_url ∈ acc.1 then acc
  else
    let stl' :=
      match alookup acc.2 source_url with
      | some lst =>
          if existing_hash ∈ lst then acc.2
          else aset acc.2 source_url (lst ++ [existing_hash])
      | none => acc.2
    (acc.1 ++ [source_url], stl')

/-- `CitationManager.add_learning`.  The merge branch mutates the matched
entry in place; the insert branch stores the learning and registers its
sources (note the code resets `source_to_learnings[url]` to `[]` inside
`add_source` for a brand-new source, after having appended the hash —
modelled exactly as written). -/
def add_learning (m : CitationManager) (learning : Learning) (now : ℚ) :
    CitationManager × String :=
  match find_similar_learning m learning.content with
  | some existing_hash =>
      match alookup m.learnings existing_hash with
      | none => (m, existing_hash)
      | some existing0 =>
          let merged :=
            learning.sources.foldl (mergeSourcesStep existing_hash)
              (existing0.sources, m.source_to_learnings)
          let conf :=
            if learning.confidence ≠ 1 then
              (existing0.confidence + learning.confidence) / 2
            else existing0.confidence
          let catStep :=
            if learning.category ≠ "" ∧ existing0.category = "" then
              (learning.category, setAdd m.learning_categories learning.category)
            else (existing0.category, m.learning_categories)
          let ctx :=
            if learning.context ≠ "" ∧
                ¬ pySubstr learning.context.data existing0.context.data then
              if existing0.context ≠ "" then
                existing0.context ++ " " ++ learning.context
              else learning.context
            else existing0.context
          let quotes :=
            learning.source_quotes.foldl addMissing existing0.source_quotes
          let existing' :=
            { existing0 with
              sources := merged.1, confidence := conf, category := catStep.1
              context := ctx, source_quotes := quotes }
          ({ m with
             learnings := aset m.learnings existing_hash existing'
             source_to_learnings := merged.2
             learning_categories := catStep.2 }, existing_hash)
  | none =>
      let hash_id := learning.hash_id
      let m1 := { m with learnings := aset m.learnings hash_id learning }
      let m2 :=
        learning.sources.foldl
          (fun acc source_url =>
            let stl :=
              match alookup acc.source_to_learnings source_url with
              | none => aset acc.source_to_learnings source_url [hash_id]
              | some lst => aset acc.source_to_learnings source_url (lst ++ [hash_id])
            let acc' := { acc with source_to_learnings := stl }
            if alookup acc'.sources source_url = none then
              (add_source acc' (defaultSourceInfo source_url) now).1
            else acc')
          m1
      let m3 :=
        if learning.category ≠ "" then
          { m2 with learning_categories := setAdd m2.learning_categories learning.category }
        else m2
      (m3, hash_id)

/-! ### CitationManager export and import

File handling and JSON encoding are abstracted away: `export_to_json`
produces the document that would be serialized and `import_from_json`
consumes it.  `_source_to_dict` is the exact field list written by the code —
it does not include `extracted_content`. -/

structure SourceDict : Type where
  url : String
  title : String
  snippet : String
  source_type : String
  content_type : String
  access_time : ℚ
  domain : String
  reliability_score : ℚ
  metadata : List (String × MVal)
  deriving DecidableEq

structure LearningDict : Type where
  content : String
  sources : List String
  confidence : ℚ
  category : String
  context : String
  source_quotes : List String
  hash_id : String
  deriving DecidableEq

/-- `CitationManager._source_to_dict`. -/
def source_to_dict (s : SourceInfo) : SourceDict :=
  { url := s.url, title := s.title, snippet := s.snippet
    source_type := s.source_type, content_type := s.content_type
    access_time := s.access_time, domain := s.domain
    reliability_score := s.reliability_score, metadata := s.metadata }

/-- `CitationManager._dict_to_source` (a fresh `SourceInfo`, so
`extracted_content` takes its dataclass default). -/
def dict_to_source (d : SourceDict) : SourceInfo :=
  mkSourceInfo d.url d.title d.snippet d.source_type d.content_type
    d.access_time d.domain d.reliability_score "" d.metadata

/-- `CitationManager._learning_to_dict`. -/
def learning_to_dict (l : Learning) : LearningDict :=
  { content := l.content, sources := l.sources, confidence := l.confidence
    category := l.category, context := l.context
    source_quotes := l.source_quotes, hash_id := l.hash_id }

/-- `CitationManager._dict_to_learning`. -/
def dict_to_learning (d : LearningDict) : Learning :=
  mkLearning d.content d.sources d.confidence d.category d.context
    d.source_quotes d.hash_id

/-- The document written by `CitationManager.export_to_json`. -/
structure CitationExport : Type where
  sources : List (String × SourceDict)
  learnings : List (String × LearningDict)
  source_to_learnings : List (String × List String)
  learning_categories : List String
  export_time : ℚ
  deriving DecidableEq

/-- `CitationManager.export_to_json` (`now` models `time.time()`). -/
def export_to_json (m : CitationManager) (now : ℚ) : CitationExport :=
  { sources := m.sources.map (fun p => (p.1, source_to_dict p.2))
    learnings := m.learnings.map (fun p => (p.1, learning_to_dict p.2))
    source_to_learnings := m.source_to_learnings
    learning_categories := m.learning_categories
    export_time := now }

/-- `CitationManager.import_from_json`: clears the four data maps and
rebuilds them from the document (`set(...)` on the category list is the
ordered-set fold).  The citation registry is not part of the document and is
left untouched, exactly as in the code. -/
def import_from_json (m : CitationManager) (data : CitationExport) : CitationManager :=
  { m with
    sources := data.sources.map (fun p => (p.1, dict_to_source p.2))
    learnings := data.learnings.map (fun p => (p.1, dict_to_learning p.2))
    source_to_learnings := data.source_to_learnings
    learning_categories := data.learning_categories.foldl setAdd [] }

/-- Erase `extracted_content` from every stored source (what a round trip
through the export document actually preserves). -/
def eraseExtractedContent (m : CitationManager) : CitationManager :=
  { m with
    sources := m.sources.map (fun p => (p.1, { p.2 with extracted_content := "" })) }

/-! ### WebScraper.scrape_url / scrape_urls control flow

Network effects are made explicit: every fetch operation the code initiates
is recorded in a trace, and its outcome comes from an environment of
oracles (HTTP responses, the robots parser, content extraction). -/

/-- A network fetch operation initiated by the scraper. -/
inductive NetOp : Type
  | robotsFetch (robots_url : String)
  | pageFetch (url : String)
  deriving DecidableEq, Repr

/-- Outcome of the `aiohttp` GET for a robots.txt file: either the request
raises (unsupported scheme, transport failure, timeout) or a status and
body arrive. -/
inductive RobotsHttpOutcome : Type
  | raise
  | resp (status : Nat) (content : String)

/-- Oracles describing the outside world for one `scrape_url` call. -/
structure ScrapeEnv : Type where
  robotsHttp : String → RobotsHttpOutcome
  parserVerdict : String → String → String → Bool
  pageFetch : Nat → Option String × Option String × Option Nat
  extractContent : String → String → String × String × List (String × MVal)
  userAgent : String

/-- Cached robots parsers of a `RobotsChecker` (`parsers` keeps the fetched
robots.txt body the parser was built from, `last_checked` the fetch time). -/
structure RobotsState : Type where
  parsers : List (String × String)
  last_checked : List (String × Int)
  deriving DecidableEq

/-- The fetch-or-refresh path of `RobotsChecker.can_fetch`: GET robots.txt;
a raised request or a non-200 response fails open (allow) without caching,
a 200 response is parsed, cached and consulted. -/
def can_fetch_refresh (env : ScrapeEnv) (st : RobotsState) (domain robots_url : String)
    (now : Int) (url : String) : Bool × RobotsState × List NetOp :=
  match env.robotsHttp robots_url with
  | .raise => (true, st, [.robotsFetch robots_url])
  | .resp status content =>
      if status = 200 then
        (env.parserVerdict content env.userAgent url,
         { parsers := aset st.parsers domain content
           last_checked := aset st.last_checked domain now },
         [.robotsFetch robots_url])
      else (true, st, [.robotsFetch robots_url])

/-- `RobotsChecker.can_fetch`.  A URL without a netloc is refused outright
(no fetch); otherwise a cached, unexpired parser is consulted, else
robots.txt is fetched. -/
def can_fetch (env : ScrapeEnv) (st : RobotsState) (cache_ttl now : Int)
    (url : String) : Bool × RobotsState × List NetOp :=
  let netloc := netlocOf url
  if netloc = "" then (false, st, [])
  else
    let domain := schemeOf url ++ "://" ++ netloc
    let robots_url := domain ++ "/robots.txt"
    match alookup st.parsers domain with
    | some content =>
        if now - (alookup st.last_checked domain).getD 0 < cache_ttl then
          (env.parserVerdict content env.userAgent url, st, [])
        else can_fetch_refresh env st domain robots_url now url
    | none => can_fetch_refresh env st domain robots_url now url

/-- Python truthiness of the `html` variable in the retry loop of
`scrape_url` (`None` and the empty string are falsy). -/
def htmlOk : Option String → Bool
  | none => false
  | some s => s ≠ ""

/-- The retry loop of `scrape_url`: up to `remaining` attempts starting at
index `attempt`; stops at the first truthy html. -/
def fetchLoop (env : ScrapeEnv) (url : String) :
    Nat → Nat → Option (String × Option String × Option Nat) × List NetOp
  | _, 0 => (none, [])
  | attempt, r + 1 =>
      let res := env.pageFetch attempt
      if htmlOk res.1 then
        (some (res.1.getD "", res.2.1, res.2.2), [.pageFetch url])
      else
        let rest := fetchLoop env url (attempt + 1) r
        (rest.1, .pageFetch url :: rest.2)

/-- `WebScraper.scrape_url`.  `cache_entry` is the on-disk cache file for
this URL (consulted through `scraperCache_get` unless `force_refresh`);
`robots` is the robots-checker cache; the returned trace lists every fetch
the call initiated.  The write-through `cache.set` on success has no
observable effect on the returned value and is omitted. -/
def scrape_url (env : ScrapeEnv) (cache_entry : Option ScraperCacheEntry)
    (robots : RobotsState) (respect_robots : Bool) (scraper_ttl robots_ttl now : Int)
    (max_retries : Nat) (force_refresh : Bool) (url : String) :
    ScrapedContent × List NetOp :=
  let cached := if force_refresh then none else scraperCache_get cache_entry scraper_ttl now
  match cached with
  | some c => (c, [])
  | none =>
      let robotsRes :=
        if respect_robots then can_fetch env robots robots_ttl now url
        else (true, robots, [])
      if ¬ robotsRes.1 then
        (ScrapedContent.from_error url ("Access to " ++ url ++ " denied by robots.txt"),
         robotsRes.2.2)
      else
        let fetched := fetchLoop env url 0 max_retries
        match fetched.1 with
        | none =>
            (ScrapedContent.from_error url
              ("Failed to fetch content after " ++ toString max_retries ++ " attempts"),
             robotsRes.2.2 ++ fetched.2)
        | some res =>
            let extracted := env.extractContent res.1 url
            ({ url := url, title := extracted.1, text := extracted.2.1
               html := res.1, metadata := extracted.2.2, timestamp := now
               content_type := (res.2.1).getD "text/html"
               status_code := res.2.2, error := none },
             robotsRes.2.2 ++ fetched.2)

/-- Python `url.rstrip("/")`. -/
def rstripSlash (s : String) : String :=
  String.mk (s.data.reverse.dropWhile (fun c => c = '/')).reverse

/-- The deduplication loop at the top of `scrape_urls`: keep the first
occurrence of each URL, comparing URLs after stripping trailing slashes
(`seen` holds the normalized URLs already kept). -/
def uniqueUrlsAux (seen : List String) : List String → List String
  | [] => []
  | url :: rest =>
      let normalized := rstripSlash url
      if normalized ∈ seen then uniqueUrlsAux seen rest
      else url :: uniqueUrlsAux (normalized :: seen) rest

/-- `WebScraper.scrape_urls`: deduplicate, then scrape each retained URL.
The per-URL work (`scrape_with_semaphore`, which wraps `scrape_url`) is
abstracted as `f`; `asyncio.gather` returns results in task order, so the
output order is the order of the retained URLs. -/
def scrape_urls (f : String → ScrapedContent) (urls : List String) :
    List ScrapedContent :=
  (uniqueUrlsAux [] urls).map f

/-! ### The research controller (graph/builder.py, agent_utils.should_continue,
nodes/search.py, nodes/generate_queries.py)

`ControllerState` is the projection of the `AgentState` dict onto the
channels that the control flow reads or writes; the remaining channels
(findings, sources, messages, ...) never influence a transition.  Note that
`AgentState` (content_processor.py) declares no `iteration_count` channel:
the only place that key is ever touched is inside `should_continue` itself,
which is wired as a conditional-edge router of the `StateGraph`
(builder.py), and `StateGraph` persists only node return values — a dict
write made inside an edge router is discarded when the router returns.  The
language model is an oracle `gen` giving, for each visit to the
query-generation node, the cleaned-and-filtered candidate list the node
computes from the LLM response (the regex cleanup itself is pure text
processing of that response).  `should_continue` is modelled in the
no-shutdown setting: the global shutdown flag stays unset, so the
signal-handling branches at its top are never taken. -/

inductive GraphNode : Type
  | initialize_node
  | generate_queries
  | search
  | reflect
  | smart_source_selection
  | format_citations
  | generate_initial_report
  | enhance_report
  | expand_key_sections
  | report
  deriving DecidableEq, Repr

structure ControllerState : Type where
  node : GraphNode
  query : String
  depth : Nat
  breadth : Nat
  current_depth : Nat
  subqueries : List String
  gen_visits : Nat
  deriving DecidableEq, Repr

/-- The initial `AgentState` built by `ResearchGraph.research` before the
graph runs (`current_depth=0`, `subqueries=[]`). -/
def initControllerState (query : String) (depth breadth : Nat) : ControllerState :=
  { node := .initialize_node, query := query, depth := depth, breadth := breadth
    current_depth := 0, subqueries := [], gen_visits := 0 }

/-- The counter mutation at the top of `should_continue` (lines 100-103):
set the `"iteration_count"` entry to 1 when the key is absent, else
increment it. -/
def bumpIteration : Option Nat → Nat
  | none => 1
  | some n => n + 1

/-- `should_continue` (agent_utils.py): bump the iteration counter found
under the `"iteration_count"` key of the dict handed to the router
(`iteration_count` argument; `none` when the key is absent), end at the
hard ceiling of 25, otherwise continue exactly while
`current_depth < depth`.  Returns the routing decision together with the
counter value the call wrote into its local dict.  That write is never
persisted: `iteration_count` is not an `AgentState` channel and
`should_continue` runs as a conditional-edge router, so the graph hands
every invocation an absent key (see `controllerStep`). -/
def should_continue (iteration_count : Option Nat) (s : ControllerState) :
    Bool × Nat :=
  let ic := bumpIteration iteration_count
  if 25 ≤ ic then (false, ic)
  else if s.current_depth < s.depth then (true, ic)
  else (false, ic)

/-- The `generate_queries` node: take the (already cleaned) candidate list,
truncate to `breadth`, and fall back to the verbatim original query when the
list is empty and the query is non-empty; append to `subqueries`. -/
def generate_queries_body (gen : Nat → List String) (s : ControllerState) :
    ControllerState :=
  let raw := (gen s.gen_visits).take s.breadth
  let new_queries := if raw = [] ∧ s.query ≠ "" then [s.query] else raw
  { s with subqueries := s.subqueries ++ new_queries
           gen_visits := s.gen_visits + 1 }

/-- One step of the compiled graph: run the body of the current node, then
follow its (conditional) edge.  The `search` node increments
`current_depth`; its conditional edge is `should_continue`, which receives
the state without an `"iteration_count"` key (the schema has no such
channel and router-local writes are discarded, so the key is absent at
every evaluation — hence the `none`) and contributes only its routing
decision.  `report` is the finish point and absorbs. -/
def controllerStep (gen : Nat → List String) (s : ControllerState) : ControllerState :=
  match s.node with
  | .initialize_node => { s with node := .generate_queries }
  | .generate_queries => { generate_queries_body gen s with node := .search }
  | .search =>
      let s1 := { s with current_depth := s.current_depth + 1 }
      { s1 with node :=
          if (should_continue none s1).1 then .reflect
          else .smart_source_selection }
  | .reflect => { s with node := .generate_queries }
  | .smart_source_selection => { s with node := .format_citations }
  | .format_citations => { s with node := .generate_initial_report }
  | .generate_initial_report => { s with node := .enhance_report }
  | .enhance_report => { s with node := .expand_key_sections }
  | .expand_key_sections => { s with node := .report }
  | .report => s

/-- Run `n` steps of the graph. -/
def runController (gen : Nat → List String) : Nat → ControllerState → ControllerState
  | 0, s => s
  | n + 1, s => runController gen n (controllerStep gen s)

/-- A manager state is well formed when every stored source and learning is a
fixed point of its dataclass post-init (which is automatic for values built
through the constructors) and the category set has no duplicates. -/
def managerWellFormed (m : CitationManager) : Prop :=
  (∀ p ∈ m.sources, sourcePostInit p.2 = p.2) ∧
  (∀ p ∈ m.learnings, learningPostInit p.2 = p.2) ∧
  m.learning_categories.Nodup

instance : DecidablePred managerWellFormed := fun m => by
  unfold managerWellFormed
  infer_instance

/-- A concrete manager state with a non-empty `extracted_content`, used to
exercise the export round trip. -/
def sampleManager : CitationManager :=
  { sources :=
      [("https://e.example/a",
        mkSourceInfo "https://e.example/a" "T" "sn" "web" "article" 5 ""
          1 "EXTRACTED" [("k", MVal.s "v")])]
    learnings :=
      [("h1", mkLearning "a fact" ["https://e.example/a"] 1 "fact"
        "ctx" ["a fact"] "")]
    source_to_learnings := [("https://e.example/a", ["h1"])]
    citation_registry := CitationRegistry.fresh
    learning_categories := ["fact"] }

/-- A learning stored with confidence 0. -/
def storedLearning : Learning :=
  mkLearning "solar output depends on panel temperature"
    ["https://s1.example"] 0 "" "" ["q1"] ""

/-- A manager holding exactly `storedLearning`. -/
def oneLearningManager : CitationManager :=
  { sources := [], learnings := [(storedLearning.hash_id, storedLearning)]
    source_to_learnings := [], citation_registry := CitationRegistry.fresh
    learning_categories := [] }

/-- The same content arriving again with the dataclass default confidence 1. -/
def duplicateLearning : Learning :=
  mkLearning "solar output depends on panel temperature"
    ["https://s2.example"] 1 "" "" ["q2"] ""

/-- An environment in which every network operation fails: the robots GET
raises and every page fetch yields no html (what actually happens for a URL
scheme that aiohttp does not support). -/
def failingEnv : ScrapeEnv :=
  { robotsHttp := fun _ => RobotsHttpOutcome.raise
    parserVerdict := fun _ _ _ => true
    pageFetch := fun _ => (none, none, none)
    extractContent := fun _ _ => ("", "", [])
    userAgent := "test-agent" }

/-- Registration-only operation lists, used to state id stability under an
arbitrary interleaving of further registrations. -/
def applyRegistrations (reg : CitationRegistry) (ops : List (String × String)) :
    CitationRegistry :=
  ops.foldl (fun r p => (register_citation r p.1 p.2).1) reg

/-! ## Helper lemmas on association lists -/

theorem alookup_aset {α β : Type} [DecidableEq α] (l : List (α × β)) (k k' : α)
    (v : β) :
    alookup (aset l k v) k' = if k = k' then some v else alookup l k' := by
  induction l with
  | nil => by_cases h : k = k' <;> simp [aset, alookup, h]
  | cons hd tl ih =>
      obtain ⟨a, b⟩ := hd
      by_cases hak : a = k <;> by_cases hkk : k = k' <;>
        by_cases hak' : a = k' <;> simp_all [aset, alookup]

theorem alookup_eq_none_iff {α β : Type} [DecidableEq α] (l : List (α × β)) (k : α) :
    alookup l k = none ↔ k ∉ l.map Prod.fst := by
  induction l with
  | nil => simp [alookup]
  | cons hd tl ih =>
      obtain ⟨a, b⟩ := hd
      by_cases h : a = k <;> simp_all [alookup, eq_comm]

theorem aset_of_alookup_none {α β : Type} [DecidableEq α] {l : List (α × β)}
    {k : α} (v : β) (h : alookup l k = none) : aset l k v = l ++ [(k, v)] := by
  induction l with
  | nil => simp [aset]
  | cons hd tl ih =>
      obtain ⟨a, b⟩ := hd
      by_cases hak : a = k <;> simp_all [alookup, aset]

theorem alookup_mem {α β : Type} [DecidableEq α] {l : List (α × β)} {k : α}
    {v : β} (h : alookup l k = some v) : (k, v) ∈ l := by
  induction l with
  | nil => simp [alookup] at h
  | cons hd tl ih =>
      obtain ⟨a, b⟩ := hd
      by_cases hak : a = k
      · subst hak
        simp [alookup] at h
        subst h
        exact List.mem_cons_self _ _
      · simp only [alookup, if_neg hak] at h
        exact List.mem_cons_of_mem _ (ih h)

theorem alookup_of_mem_nodup {α β : Type} [DecidableEq α] {l : List (α × β)}
    {k : α} {v : β} (hnd : (l.map Prod.fst).Nodup) (hmem : (k, v) ∈ l) :
    alookup l k = some v := by
  induction l with
  | nil => simp at hmem
  | cons hd tl ih =>
      obtain ⟨a, b⟩ := hd
      simp only [List.map_cons, List.nodup_cons] at hnd
      rcases List.mem_cons.mp hmem with heq | hmem'
      · cases heq
        simp [alookup]
      · have hk : a ≠ k := by
          intro hak
          exact hnd.1 (hak ▸ (List.mem_map.mpr ⟨(k, v), hmem', rfl⟩))
        simp [alookup, hk, ih hnd.2 hmem']

theorem map_alookup_keys {α β : Type} [DecidableEq α] (l : List (α × β)) (d : β)
    (h : (l.map Prod.fst).Nodup) :
    (l.map Prod.fst).map (fun k => (alookup l k).getD d) = l.map Prod.snd := by
  induction l with
  | nil => simp
  | cons hd tl ih =>
      obtain ⟨a, b⟩ := hd
      simp only [List.map_cons, List.nodup_cons] at h ⊢
      have step : ∀ k ∈ tl.map Prod.fst,
          (alookup ((a, b) :: tl) k).getD d = (alookup tl k).getD d := by
        intro k hk
        have : a ≠ k := fun hak => h.1 (hak ▸ hk)
        simp [alookup, this]
      rw [List.map_congr_left step, ih h.2]
      simp [alookup]

theorem insSorted_of_le (x : Nat) (l : List Nat) (h : ∀ y ∈ l, x ≤ y) :
    insSorted x l = x :: l := by
  cases l with
  | nil => rfl
  | cons y ys => simp [insSorted, h y (List.mem_cons_self y ys)]

theorem sortNat_of_pairwise (l : List Nat) (h : l.Pairwise (· ≤ ·)) :
    sortNat l = l := by
  induction l with
  | nil => rfl
  | cons x xs ih =>
      have hx : ∀ y ∈ xs, x ≤ y := (List.pairwise_cons.mp h).1
      have hxs := ih (List.pairwise_cons.mp h).2
      simp only [sortNat, List.foldr_cons] at *
      rw [hxs, insSorted_of_le x xs hx]

/-! ## C4: cache TTL boundary -/

/-- C4: both `SearchCache.get` and `ScraperCache.get` treat the TTL boundary
inclusively: an entry stored at `t0` is served at every `t` with
`t - t0 ≤ ttl` (in particular at `t0 + ttl - 1` and exactly at `t0 + ttl`),
and at every `t` with `t - t0 > ttl` the lookup returns `none`, identical to
an absent entry. -/
theorem cache_ttl_inclusive_boundary (ttl t0 t : Int)
    (results : List SearchResult) (content : ScrapedContent) :
    (t - t0 ≤ ttl →
      searchCache_get (some ⟨t0, results⟩) ttl t = some results ∧
      scraperCache_get (some ⟨t0, content⟩) ttl t = some content) ∧
    (ttl < t - t0 →
      searchCache_get (some ⟨t0, results⟩) ttl t = none ∧
      scraperCache_get (some ⟨t0, content⟩) ttl t = none ∧
      searchCache_get (some ⟨t0, results⟩) ttl t = searchCache_get none ttl t ∧
      scraperCache_get (some ⟨t0, content⟩) ttl t = scraperCache_get none ttl t) ∧
    searchCache_get (some ⟨t0, results⟩) ttl (t0 + ttl - 1) = some results ∧
    searchCache_get (some ⟨t0, results⟩) ttl (t0 + ttl) = some results ∧
    scraperCache_get (some ⟨t0, content⟩) ttl (t0 + ttl - 1) = some content ∧
    scraperCache_get (some ⟨t0, content⟩) ttl (t0 + ttl) = some content := by
  refine ⟨fun h => ?_, fun h => ?_, ?_, ?_, ?_, ?_⟩ <;>
    simp [searchCache_get, scraperCache_get] <;> omega

/-- Witness for C4 at `ttl = 10`, `t0 = 100`: hit at `t = 110`, miss at
`t = 111`. -/
theorem cache_ttl_inclusive_boundary_witness :
    searchCache_get (some ⟨100, []⟩) 10 110 = some [] ∧
    scraperCache_get (some ⟨100, ScrapedContent.from_error "u" "e"⟩) 10 111 = none := by
  have h110 := cache_ttl_inclusive_boundary 10 100 110 []
    (ScrapedContent.from_error "u" "e")
  have h111 := cache_ttl_inclusive_boundary 10 100 111 []
    (ScrapedContent.from_error "u" "e")
  exact ⟨(h110.1 (by decide)).1, (h111.2.1 (by decide)).2.1⟩

/-! ## C2: citation id stability -/

theorem register_found {reg : CitationRegistry} {u : String} {i : Nat}
    (ctx : String) (h : alookup reg.url_to_id u = some i) :
    (register_citation reg u ctx).2 = i := by
  simp [register_citation, h]

theorem register_lookup_self (reg : CitationRegistry) (u ctx : String) :
    alookup ((register_citation reg u ctx).1).url_to_id u
      = some ((register_citation reg u ctx).2) := by
  rcases hcase : alookup reg.url_to_id u with _ | i
  · simp [register_citation, hcase, alookup_aset]
  · simp only [register_citation, hcase]
    split <;> simp [hcase]

theorem register_preserves_url_id {reg : CitationRegistry} {u : String} {i : Nat}
    (v ctx : String) (h : alookup reg.url_to_id u = some i) :
    alookup ((register_citation reg v ctx).1).url_to_id u = some i := by
  rcases hcase : alookup reg.url_to_id v with _ | j
  · have hvu : v ≠ u := by
      rintro rfl
      rw [hcase] at h
      exact absurd h (by simp)
    simp [register_citation, hcase, alookup_aset, hvu, h]
  · simp only [register_citation, hcase]
    split <;> simp [h]

theorem update_metadata_url_id (reg : CitationRegistry) (cid : Nat)
    (metadata : List (String × MVal)) :
    (update_citation_metadata reg cid metadata).url_to_id = reg.url_to_id := by
  rcases hcase : alookup reg.citations cid with _ | e <;>
    simp [update_citation_metadata, hcase]

theorem bulk_preserves_url_id {u : String} {i : Nat} (urls : List String) :
    ∀ reg : CitationRegistry, alookup reg.url_to_id u = some i →
      alookup (bulk_register_sources reg urls).url_to_id u = some i := by
  induction urls with
  | nil => intro reg h; exact h
  | cons w rest ih =>
      intro reg h
      simp only [bulk_register_sources]
      by_cases hw : alookup reg.url_to_id w = none
      · simpa [hw] using ih _ (register_preserves_url_id w "" h)
      · simpa [hw] using ih _ h

theorem applyRegistryOps_preserves_url_id {u : String} {i : Nat}
    (ops : List RegistryOp) :
    ∀ reg : CitationRegistry, alookup reg.url_to_id u = some i →
      alookup (applyRegistryOps reg ops).url_to_id u = some i := by
  induction ops with
  | nil => intro reg h; exact h
  | cons op rest ih =>
      intro reg h
      show alookup (applyRegistryOps (applyRegistryOp reg op) rest).url_to_id u = some i
      apply ih
      cases op with
      | reg url ctx => exact register_preserves_url_id url ctx h
      | bulk urls => exact bulk_preserves_url_id urls reg h
      | upd cid md =>
          show alookup (update_citation_metadata reg cid md).url_to_id u = some i
          rw [update_metadata_url_id]
          exact h

/-- C2: `register_citation` is idempotent and order-stable — registering the
same URL again, after any interleaving of other registry operations, returns
the first id; on a fresh registry two distinct URLs get the consecutive ids
1 and 2 in call order. -/
theorem register_citation_idempotent_and_sequential :
    (∀ (reg : CitationRegistry) (u c1 c2 : String) (ops : List RegistryOp),
      (register_citation (applyRegistryOps (register_citation reg u c1).1 ops) u c2).2
        = (register_citation reg u c1).2) ∧
    (∀ u v : String, u ≠ v →
      (register_citation CitationRegistry.fresh u "").2 = 1 ∧
      (register_citation ((register_citation CitationRegistry.fresh u "").1) v "").2 = 2) := by
  constructor
  · intro reg u c1 c2 ops
    exact register_found c2
      (applyRegistryOps_preserves_url_id ops _ (register_lookup_self reg u c1))
  · intro u v huv
    constructor
    · simp [register_citation, CitationRegistry.fresh, alookup]
    · simp [register_citation, CitationRegistry.fresh, alookup, aset, huv]

/-- Witness for C2: a double registration around an interleaving (another
registration, a bulk registration, a metadata update) and the 1-2 sequence
for two concrete URLs. -/
theorem register_citation_idempotent_and_sequential_witness :
    ((register_citation
        (applyRegistryOps (register_citation CitationRegistry.fresh "https://a.example" "x").1
          [RegistryOp.reg "https://b.example" "", RegistryOp.bulk ["https://c.example"],
           RegistryOp.upd 1 [("title", MVal.s "T")]])
        "https://a.example" "y").2
      = (register_citation CitationRegistry.fresh "https://a.example" "x").2) ∧
    ((register_citation CitationRegistry.fresh "https://a.example" "").2 = 1 ∧
     (register_citation ((register_citation CitationRegistry.fresh "https://a.example" "").1)
        "https://b.example" "").2 = 2) :=
  ⟨register_citation_idempotent_and_sequential.1 CitationRegistry.fresh
      "https://a.example" "x" "y" _,
   register_citation_idempotent_and_sequential.2 "https://a.example" "https://b.example"
      (by decide)⟩

/-! ## C3: citation validation -/

/-- C3: with registered ids exactly `{1, 2}` and the text
`"[1] ... [2] ... [5]"`, `validate_citations` reports `valid = false`,
`used_citations = {1, 2, 5}`, `invalid_citations ⊇ {5}`,
`out_of_range_citations = {5}` and `max_valid_id = 2`; in general
`out_of_range_citations` is always a subset of `invalid_citations`. -/
theorem validate_citations_spec :
    ((validate_citations
        ((register_citation ((register_citation CitationRegistry.fresh
            "https://one.example" "").1) "https://two.example" "").1)
        "[1] ... [2] ... [5]").valid = false ∧
     (validate_citations
        ((register_citation ((register_citation CitationRegistry.fresh
            "https://one.example" "").1) "https://two.example" "").1)
        "[1] ... [2] ... [5]").used_citations = ({1, 2, 5} : Finset Nat) ∧
     ({5} : Finset Nat) ⊆ (validate_citations
        ((register_citation ((register_citation CitationRegistry.fresh
            "https://one.example" "").1) "https://two.example" "").1)
        "[1] ... [2] ... [5]").invalid_citations ∧
     (validate_citations
        ((register_citation ((register_citation CitationRegistry.fresh
            "https://one.example" "").1) "https://two.example" "").1)
        "[1] ... [2] ... [5]").out_of_range_citations = ({5} : Finset Nat) ∧
     (validate_citations
        ((register_citation ((register_citation CitationRegistry.fresh
            "https://one.example" "").1) "https://two.example" "").1)
        "[1] ... [2] ... [5]").max_valid_id = 2) ∧
    ∀ (reg : CitationRegistry) (text : String),
      (validate_citations reg text).out_of_range_citations
        ⊆ (validate_citations reg text).invalid_citations := by
  refine ⟨by decide, fun reg text => ?_⟩
  intro x hx
  exact Finset.mem_union_right _ hx

/-! ## C5: merge_results and URL deduplication -/

theorem le_foldr_max (l : List Nat) (b : Nat) (h : b ∈ l) : b ≤ l.foldr max 0 := by
  induction l with
  | nil => simp at h
  | cons a t ih =>
      rcases List.mem_cons.mp h with rfl | h'
      · exact le_max_left _ _
      · exact le_trans (ih h') (le_max_right _ _)

theorem mem_buckets_aset (s : String) (r x : SearchResult) :
    ∀ acc : List (String × List SearchResult),
      (∃ g ∈ aset acc s ((alookup acc s).getD [] ++ [r]), x ∈ g.2)
        ↔ (∃ g ∈ acc, x ∈ g.2) ∨ x = r := by
  intro acc
  induction acc with
  | nil => simp [aset, alookup]
  | cons hd tl ih =>
      obtain ⟨a, b⟩ := hd
      by_cases has : a = s
      · subst has
        have hL : aset ((a, b) :: tl) a ((alookup ((a, b) :: tl) a).getD [] ++ [r])
            = (a, b ++ [r]) :: tl := by simp [aset, alookup]
        rw [hL]
        constructor
        · rintro ⟨g, hg, hx⟩
          rcases List.mem_cons.mp hg with rfl | hg'
          · rcases List.mem_append.mp hx with hxb | hxr
            · exact Or.inl ⟨(a, b), List.mem_cons_self _ _, hxb⟩
            · exact Or.inr (List.mem_singleton.mp hxr)
          · exact Or.inl ⟨g, List.mem_cons_of_mem _ hg', hx⟩
        · rintro (⟨g, hg, hx⟩ | hxr)
          · rcases List.mem_cons.mp hg with rfl | hg'
            · exact ⟨(a, b ++ [r]), List.mem_cons_self _ _,
                List.mem_append.mpr (Or.inl hx)⟩
            · exact ⟨g, List.mem_cons_of_mem _ hg', hx⟩
          · exact ⟨(a, b ++ [r]), List.mem_cons_self _ _,
              List.mem_append.mpr (Or.inr (List.mem_singleton.mpr hxr))⟩
      · simp only [aset, if_neg has, alookup, if_neg has]
        constructor
        · rintro ⟨g, hg, hx⟩
          rcases List.mem_cons.mp hg with rfl | hg'
          · exact Or.inl ⟨(a, b), List.mem_cons_self _ _, hx⟩
          · rcases ih.mp ⟨g, hg', hx⟩ with ⟨g', hg', hx'⟩ | hr
            · exact Or.inl ⟨g', List.mem_cons_of_mem _ hg', hx'⟩
            · exact Or.inr hr
        · rintro (⟨g, hg, hx⟩ | hr)
          · rcases List.mem_cons.mp hg with rfl | hg'
            · exact ⟨(a, b), List.mem_cons_self _ _, hx⟩
            · obtain ⟨g', hg'', hx'⟩ := ih.mpr (Or.inl ⟨g, hg', hx⟩)
              exact ⟨g', List.mem_cons_of_mem _ hg'', hx'⟩
          · obtain ⟨g', hg'', hx'⟩ := ih.mpr (Or.inr hr)
            exact ⟨g', List.mem_cons_of_mem _ hg'', hx'⟩

theorem mem_groupBySource_fold (x : SearchResult) :
    ∀ (rs : List SearchResult) (acc : List (String × List SearchResult)),
      (∃ g ∈ rs.foldl
          (fun groups r => aset groups r.source ((alookup groups r.source).getD [] ++ [r]))
          acc, x ∈ g.2)
        ↔ (∃ g ∈ acc, x ∈ g.2) ∨ x ∈ rs := by
  intro rs
  induction rs with
  | nil => simp
  | cons r rest ih =>
      intro acc
      rw [List.foldl_cons, ih, mem_buckets_aset]
      simp [or_assoc, List.mem_cons, eq_comm]

theorem mem_groupBySource (rs : List SearchResult) (x : SearchResult) :
    (∃ g ∈ groupBySource rs, x ∈ g.2) ↔ x ∈ rs := by
  rw [groupBySource, mem_groupBySource_fold]
  simp

theorem mem_merge_results_alternate (rs : List SearchResult) (x : SearchResult) :
    x ∈ merge_results_alternate rs ↔ x ∈ rs := by
  by_cases hrs : rs = []
  · subst hrs; simp [merge_results_alternate]
  · have heq : merge_results_alternate rs =
        ((List.range (if groupBySource rs = [] then 0
            else ((groupBySource rs).map (fun g => g.2.length)).foldr max 0)).map
          (fun i => (groupBySource rs).filterMap (fun g => g.2[i]?))).flatten := by
      simp only [merge_results_alternate, if_neg hrs]
    rw [heq]
    by_cases hsrc : groupBySource rs = []
    · rw [if_pos hsrc]
      constructor
      · intro hx
        simp at hx
      · intro hx
        have hex := (mem_groupBySource rs x).mpr hx
        rw [hsrc] at hex
        simp at hex
    · rw [if_neg hsrc]
      constructor
      · intro hx
        rcases List.mem_flatten.mp hx with ⟨l, hl, hxl⟩
        rcases List.mem_map.mp hl with ⟨i, _, rfl⟩
        rcases List.mem_filterMap.mp hxl with ⟨g, hg, hgi⟩
        exact (mem_groupBySource rs x).mp
          ⟨g, hg, List.getElem?_mem hgi⟩
      · intro hx
        obtain ⟨g, hg, hxg⟩ := (mem_groupBySource rs x).mpr hx
        obtain ⟨i, hi, hgi⟩ := List.mem_iff_getElem.mp hxg
        refine List.mem_flatten.mpr
          ⟨(groupBySource rs).filterMap (fun g => g.2[i]?), ?_, ?_⟩
        · refine List.mem_map.mpr ⟨i, List.mem_range.mpr ?_, rfl⟩
          calc i < g.2.length := hi
            _ ≤ _ := le_foldr_max _ _ (List.mem_map.mpr ⟨g, hg, rfl⟩)
        · exact List.mem_filterMap.mpr
            ⟨g, hg, by rw [List.getElem?_eq_getElem hi, hgi]⟩

/-- C5 counterexample: `merge_results` performs no deduplication by URL.
Merging a two-element list whose elements are the same result (same URL)
under the `alternate` strategy returns both copies, so the output has two
elements with the same URL. -/
theorem merge_results_no_dedup_counterexample :
    merge_results_alternate
        [mkSearchResult "Title" (some "https://dup.example") "s" "Google" none [],
         mkSearchResult "Title" (some "https://dup.example") "s" "Google" none []]
      = [mkSearchResult "Title" (some "https://dup.example") "s" "Google" none [],
         mkSearchResult "Title" (some "https://dup.example") "s" "Google" none []] ∧
    ¬ ((merge_results_alternate
        [mkSearchResult "Title" (some "https://dup.example") "s" "Google" none [],
         mkSearchResult "Title" (some "https://dup.example") "s" "Google" none []]).map
          SearchResult.url).Nodup := by
  constructor
  · decide
  · decide

/-- C5 amended: `merge_results` with the `alternate` strategy is a
source-grouped round-robin interleaving that preserves the set of elements
(hence the set of URLs) but drops nothing: merging a list with itself keeps
the same URL set while retaining every positional duplicate (see the
counterexample for the retained duplicates). -/
theorem merge_results_alternate_url_set (rs : List SearchResult) :
    ((merge_results_alternate rs).map SearchResult.url).toFinset
      = (rs.map SearchResult.url).toFinset ∧
    ((merge_results_alternate (rs ++ rs)).map SearchResult.url).toFinset
      = (rs.map SearchResult.url).toFinset := by
  have hset : ∀ ts : List SearchResult,
      ((merge_results_alternate ts).map SearchResult.url).toFinset
        = (ts.map SearchResult.url).toFinset := by
    intro ts
    ext u
    simp only [List.mem_toFinset, List.mem_map]
    constructor
    · rintro ⟨x, hx, rfl⟩
      exact ⟨x, (mem_merge_results_alternate ts x).mp hx, rfl⟩
    · rintro ⟨x, hx, rfl⟩
      exact ⟨x, (mem_merge_results_alternate ts x).mpr hx, rfl⟩
  refine ⟨hset rs, (hset (rs ++ rs)).trans ?_⟩
  ext u
  simp

/-! ## C6: citation ledger export/import round trip -/

theorem dict_roundtrip_learning {l : Learning} (h : learningPostInit l = l) :
    dict_to_learning (learning_to_dict l) = l := by
  show learningPostInit l = l
  exact h

theorem dict_roundtrip_source {s : SourceInfo} (h : sourcePostInit s = s) :
    dict_to_source (source_to_dict s) = { s with extracted_content := "" } := by
  obtain ⟨url, title, snippet, st, ct, at0, dom, rs0, ec, md⟩ := s
  dsimp only [dict_to_source, source_to_dict, mkSourceInfo, sourcePostInit] at h ⊢
  by_cases hd : dom = "" ∧ url ≠ ""
  · simp only [if_pos hd] at h ⊢
    have hdom := congrArg SourceInfo.domain h
    simp only at hdom
    simp [hdom]
  · simp only [if_neg hd] at h ⊢

theorem foldl_setAdd_of_nodup :
    ∀ (l acc : List String), l.Nodup → (∀ x ∈ l, x ∉ acc) →
      l.foldl setAdd acc = acc ++ l := by
  intro l
  induction l with
  | nil => intro acc _ _; simp
  | cons a t ih =>
      intro acc hnd hdisj
      have ha : a ∉ acc := hdisj a (List.mem_cons_self _ _)
      rw [List.foldl_cons]
      show List.foldl setAdd (setAdd acc a) t = acc ++ a :: t
      rw [setAdd, if_neg ha, ih (acc ++ [a]) (List.nodup_cons.mp hnd).2 ?side]
      · simp
      case side =>
        intro x hx
        simp only [List.mem_append, List.mem_singleton]
        rintro (hacc | rfl)
        · exact hdisj x (List.mem_cons_of_mem _ hx) hacc
        · exact (List.nodup_cons.mp hnd).1 hx

/-- C6 counterexample: the export/import round trip is not lossless.  On a
state whose only source carries `extracted_content = "EXTRACTED"`, importing
the exported document yields a different state: `_source_to_dict` writes no
`extracted_content` field, so the reimported source has it reset to `""`. -/
theorem export_import_roundtrip_counterexample :
    import_from_json sampleManager (export_to_json sampleManager 0) ≠ sampleManager ∧
    (alookup (import_from_json sampleManager
        (export_to_json sampleManager 0)).sources "https://e.example/a").map
      SourceInfo.extracted_content = some "" ∧
    (alookup sampleManager.sources "https://e.example/a").map
      SourceInfo.extracted_content = some "EXTRACTED" := by
  refine ⟨by decide, by decide, by decide⟩

/-- C6 amended: for every well-formed manager state, importing the exported
document restores the state exactly except that every `extracted_content` is
reset to the empty string; all other `SourceInfo` fields, every `Learning`
field, the `source_to_learnings` map and the category set are preserved. -/
theorem export_import_roundtrip_amended (m : CitationManager) (t : ℚ)
    (h : managerWellFormed m) :
    import_from_json m (export_to_json m t) = eraseExtractedContent m := by
  obtain ⟨hs, hl, hc⟩ := h
  simp only [import_from_json, export_to_json, eraseExtractedContent, List.map_map]
  have hsrc : ∀ p ∈ m.sources,
      ((fun p => (p.1, dict_to_source p.2)) ∘ fun p => (p.1, source_to_dict p.2)) p
        = (fun p => (p.1, { p.2 with extracted_content := "" })) p := by
    intro p hp
    simp only [Function.comp]
    exact congrArg (fun s => (p.1, s)) (dict_roundtrip_source (hs p hp))
  have hlrn : ∀ p ∈ m.learnings,
      ((fun p => (p.1, dict_to_learning p.2)) ∘ fun p => (p.1, learning_to_dict p.2)) p
        = id p := by
    intro p hp
    simp only [Function.comp, id]
    exact congrArg (fun l => (p.1, l)) (dict_roundtrip_learning (hl p hp))
  rw [List.map_congr_left hsrc, List.map_congr_left hlrn, List.map_id,
    foldl_setAdd_of_nodup m.learning_categories [] hc (by simp)]
  simp

/-- Witness for C6 amended at the concrete sample state. -/
theorem export_import_roundtrip_amended_witness :
    managerWellFormed sampleManager ∧
    import_from_json sampleManager (export_to_json sampleManager 0)
      = eraseExtractedContent sampleManager :=
  ⟨by decide, export_import_roundtrip_amended sampleManager 0 (by decide)⟩

/-! ## C7: learning deduplication on merge -/

theorem length_aset_of_mem {α β : Type} [DecidableEq α] {l : List (α × β)}
    {k : α} {v : β} (h : alookup l k = some v) (v' : β) :
    (aset l k v').length = l.length := by
  induction l with
  | nil => simp [alookup] at h
  | cons hd tl ih =>
      obtain ⟨a, b⟩ := hd
      by_cases hak : a = k
      · simp [aset, hak]
      · simp only [alookup, if_neg hak] at h
        simp [aset, hak, ih h]

theorem foldl_mergeSourcesStep_fst (h : String) :
    ∀ (new start : List String) (stl : List (String × List String)),
      (new.foldl (mergeSourcesStep h) (start, stl)).1
        = new.foldl addMissing start := by
  intro new
  induction new with
  | nil => intro start stl; rfl
  | cons u rest ih =>
      intro start stl
      rw [List.foldl_cons, List.foldl_cons]
      by_cases hu : u ∈ start
      · rw [show mergeSourcesStep h (start, stl) u = (start, stl) by
            simp [mergeSourcesStep, hu],
          show addMissing start u = start by simp [addMissing, hu]]
        exact ih start stl
      · have haddm : addMissing start u = start ++ [u] := by simp [addMissing, hu]
        rcases hstl : alookup stl u with _ | lst
        · rw [show mergeSourcesStep h (start, stl) u = (start ++ [u], stl) by
              simp [mergeSourcesStep, hu, hstl], haddm]
          exact ih (start ++ [u]) stl
        · by_cases hmem : h ∈ lst
          · rw [show mergeSourcesStep h (start, stl) u = (start ++ [u], stl) by
                simp [mergeSourcesStep, hu, hstl, hmem], haddm]
            exact ih (start ++ [u]) stl
          · rw [show mergeSourcesStep h (start, stl) u
                  = (start ++ [u], aset stl u (lst ++ [h])) by
                simp [mergeSourcesStep, hu, hstl, hmem], haddm]
            exact ih (start ++ [u]) (aset stl u (lst ++ [h]))

theorem foldl_addMissing_toFinset :
    ∀ (new start : List String),
      (new.foldl addMissing start).toFinset = start.toFinset ∪ new.toFinset := by
  intro new
  induction new with
  | nil => intro start; simp
  | cons u rest ih =>
      intro start
      rw [List.foldl_cons]
      by_cases hu : u ∈ start
      · rw [show addMissing start u = start by simp [addMissing, hu], ih]
        ext x
        simp only [Finset.mem_union, List.mem_toFinset, List.mem_cons,
          List.mem_append, List.mem_singleton, List.not_mem_nil, or_false]
        constructor
        · rintro (hx | hx)
          · exact Or.inl hx
          · exact Or.inr (Or.inr hx)
        · rintro (hx | hx | hx)
          · exact Or.inl hx
          · exact Or.inl (hx ▸ hu)
          · exact Or.inr hx
      · rw [show addMissing start u = start ++ [u] by simp [addMissing, hu], ih]
        ext x
        simp only [Finset.mem_union, List.mem_toFinset, List.mem_cons,
          List.mem_append, List.mem_singleton, List.not_mem_nil, or_false]
        constructor
        · rintro ((hx | hx) | hx)
          · exact Or.inl hx
          · exact Or.inr (Or.inl hx)
          · exact Or.inr (Or.inr hx)
        · rintro (hx | hx | hx)
          · exact Or.inl (Or.inl hx)
          · exact Or.inl (Or.inr hx)
          · exact Or.inr hx

/-- C7 counterexample: when the incoming duplicate has the default
confidence 1, the matched entry keeps its old confidence unchanged
(`if learning.confidence != 1.0` guards the update), so the confidence does
not become the arithmetic mean `(0 + 1) / 2`. -/
theorem add_learning_confidence_not_mean_counterexample :
    storedLearning.confidence = 0 ∧
    duplicateLearning.confidence = 1 ∧
    (alookup (add_learning oneLearningManager duplicateLearning 0).1.learnings
        storedLearning.hash_id).map Learning.confidence = some 0 ∧
    ((0 : ℚ) + 1) / 2 ≠ 0 := by
  refine ⟨by decide, by decide, by decide, by norm_num⟩

theorem exists_alookup_aset {α β : Type} [DecidableEq α] (l : List (α × β))
    (k : α) (v : β) (P : β → Prop) (hP : P v) :
    ∃ v', alookup (aset l k v) k = some v' ∧ P v' :=
  ⟨v, by rw [alookup_aset]; simp, hP⟩

/-- C7 amended: when `add_learning` finds a similar existing entry (exact
normalized match first, else character-set Jaccard similarity above 0.8), it
creates no new entry: the learning count is unchanged, the matched hash is
returned, the matched entry keeps its content, its source list and quote
list become the unions of old and new, and its confidence becomes the
arithmetic mean of old and new only when the new confidence differs from 1,
staying unchanged otherwise. -/
theorem add_learning_merge_behavior (m : CitationManager) (l : Learning)
    (now : ℚ) (h : String) (ex : Learning)
    (hfind : find_similar_learning m l.content = some h)
    (hex : alookup m.learnings h = some ex) :
    (add_learning m l now).2 = h ∧
    (add_learning m l now).1.learnings.length = m.learnings.length ∧
    ∃ ex', alookup (add_learning m l now).1.learnings h = some ex' ∧
      ex'.content = ex.content ∧
      ex'.sources.toFinset = ex.sources.toFinset ∪ l.sources.toFinset ∧
      ex'.source_quotes.toFinset
        = ex.source_quotes.toFinset ∪ l.source_quotes.toFinset ∧
      ex'.confidence = (if l.confidence = 1 then ex.confidence
        else (ex.confidence + l.confidence) / 2) := by
  simp only [add_learning, hfind, hex]
  refine ⟨trivial, length_aset_of_mem hex _, ?_⟩
  apply exists_alookup_aset
  refine ⟨rfl, ?_, ?_, ?_⟩
  · show (l.sources.foldl (mergeSourcesStep h)
        (ex.sources, m.source_to_learnings)).1.toFinset
      = ex.sources.toFinset ∪ l.sources.toFinset
    rw [foldl_mergeSourcesStep_fst, foldl_addMissing_toFinset]
  · exact foldl_addMissing_toFinset l.source_quotes ex.source_quotes
  · show (if l.confidence ≠ 1 then (ex.confidence + l.confidence) / 2
        else ex.confidence)
      = (if l.confidence = 1 then ex.confidence
        else (ex.confidence + l.confidence) / 2)
    by_cases hc : l.confidence = 1 <;> simp [hc]

/-- Witness for C7 amended: the duplicate content matches the stored entry,
and the theorem applies at that concrete state. -/
theorem add_learning_merge_behavior_witness :
    (add_learning oneLearningManager duplicateLearning 0).2
        = storedLearning.hash_id ∧
    (add_learning oneLearningManager duplicateLearning 0).1.learnings.length
        = oneLearningManager.learnings.length :=
  ⟨(add_learning_merge_behavior oneLearningManager duplicateLearning 0
      storedLearning.hash_id storedLearning (by decide) (by decide)).1,
   (add_learning_merge_behavior oneLearningManager duplicateLearning 0
      storedLearning.hash_id storedLearning (by decide) (by decide)).2.1⟩

/-! ## C8: scrape_url and non-http(s) URLs -/

theorem fetchLoop_all_fail (env : ScrapeEnv) (url : String)
    (hfail : ∀ i, htmlOk (env.pageFetch i).1 = false) :
    ∀ r a : Nat,
      fetchLoop env url a r = (none, List.replicate r (NetOp.pageFetch url)) := by
  intro r
  induction r with
  | zero => intro a; rfl
  | succ n ih =>
      intro a
      simp [fetchLoop, hfail a, ih (a + 1), List.replicate_succ]

/-- C8 counterexample: `scrape_url` performs no URL scheme validation.  For
the ftp URL, with an empty cache and every network operation failing, the
call walks the normal robots-check and retry path: it initiates a robots.txt
fetch and two page fetch attempts (so the trace of initiated network
operations is not empty), and the error-tagged result it finally returns
comes from the exhausted retry loop, not from any scheme check. -/
theorem scrape_url_no_scheme_rejection_counterexample :
    schemeOf "ftp://example.com/file" = "ftp" ∧
    (scrape_url failingEnv none ⟨[], []⟩ true 86400 3600 0 2 false
        "ftp://example.com/file").2
      = [NetOp.robotsFetch "ftp://example.com/robots.txt",
         NetOp.pageFetch "ftp://example.com/file",
         NetOp.pageFetch "ftp://example.com/file"] ∧
    (scrape_url failingEnv none ⟨[], []⟩ true 86400 3600 0 2 false
        "ftp://example.com/file").2 ≠ [] ∧
    (scrape_url failingEnv none ⟨[], []⟩ true 86400 3600 0 2 false
        "ftp://example.com/file").1.error
      = some "Failed to fetch content after 2 attempts" := by
  refine ⟨by decide, by decide, by decide, by decide⟩

/-- C8 amended: `scrape_url` does not validate URL schemes.  A URL with any
scheme and a non-empty netloc, not in cache, goes through the robots check
(which initiates a robots.txt fetch; a raised robots request fails open) and
then through the page-fetch retry loop; when every attempt fails the result
is the error of the exhausted retry loop, with one robots fetch and
`max_retries` page fetches initiated.  Only a URL without a netloc is
short-circuited (by `can_fetch` returning `False`) with no network
operation, and its error then wrongly reports a robots denial. -/
theorem scrape_url_no_scheme_validation (env : ScrapeEnv) (st : RobotsState)
    (scraper_ttl robots_ttl now : Int) (max_retries : Nat) (url : String)
    (hscheme : schemeOf url ≠ "http" ∧ schemeOf url ≠ "https")
    (hnet : netlocOf url ≠ "")
    (hparsers : alookup st.parsers (schemeOf url ++ "://" ++ netlocOf url) = none)
    (hrobots : env.robotsHttp (schemeOf url ++ "://" ++ netlocOf url ++ "/robots.txt")
      = RobotsHttpOutcome.raise)
    (hfail : ∀ i, htmlOk (env.pageFetch i).1 = false) :
    ((scrape_url env none st true scraper_ttl robots_ttl now max_retries false url).1
      = ScrapedContent.from_error url
          ("Failed to fetch content after " ++ toString max_retries ++ " attempts") ∧
    (scrape_url env none st true scraper_ttl robots_ttl now max_retries false url).2
      = NetOp.robotsFetch (schemeOf url ++ "://" ++ netlocOf url ++ "/robots.txt")
          :: List.replicate max_retries (NetOp.pageFetch url)) ∧
    ∀ url2 : String, netlocOf url2 = "" →
      scrape_url env none st true scraper_ttl robots_ttl now max_retries false url2
        = (ScrapedContent.from_error url2
            ("Access to " ++ url2 ++ " denied by robots.txt"), []) := by
  constructor
  · have hcan : can_fetch env st robots_ttl now url
        = (true, st, [NetOp.robotsFetch
            (schemeOf url ++ "://" ++ netlocOf url ++ "/robots.txt")]) := by
      simp [can_fetch, hnet, hparsers, can_fetch_refresh, hrobots]
    constructor <;>
      simp [scrape_url, scraperCache_get, hcan, fetchLoop_all_fail env url hfail]
  · intro url2 hn2
    simp [scrape_url, scraperCache_get, can_fetch, hn2]

/-- Witness for C8 amended at the concrete failing environment and ftp URL. -/
theorem scrape_url_no_scheme_validation_witness :
    (scrape_url failingEnv none ⟨[], []⟩ true 86400 3600 0 2 false
        "ftp://example.com/file").1
      = ScrapedContent.from_error "ftp://example.com/file"
          ("Failed to fetch content after " ++ toString 2 ++ " attempts") := by
  exact (scrape_url_no_scheme_validation failingEnv ⟨[], []⟩ 86400 3600 0 2
    "ftp://example.com/file" (by decide) (by decide) (by decide) rfl
    (fun _ => rfl)).1.1

/-! ## C9: scrape_urls and input order/cardinality -/

theorem uniqueUrlsAux_sublist :
    ∀ (urls : List String) (seen : List String),
      List.Sublist (uniqueUrlsAux seen urls) urls := by
  intro urls
  induction urls with
  | nil => intro seen; exact List.Sublist.refl []
  | cons u rest ih =>
      intro seen
      by_cases hu : rstripSlash u ∈ seen
      · simpa [uniqueUrlsAux, hu] using (ih seen).cons u
      · simpa [uniqueUrlsAux, hu] using (ih (rstripSlash u :: seen)).cons₂ u

theorem uniqueUrlsAux_nodup :
    ∀ (urls : List String) (seen : List String),
      ((uniqueUrlsAux seen urls).map rstripSlash).Nodup ∧
      ∀ x ∈ (uniqueUrlsAux seen urls).map rstripSlash, x ∉ seen := by
  intro urls
  induction urls with
  | nil => intro seen; simp [uniqueUrlsAux]
  | cons u rest ih =>
      intro seen
      by_cases hu : rstripSlash u ∈ seen
      · simpa [uniqueUrlsAux, hu] using ih seen
      · have h1 := (ih (rstripSlash u :: seen)).1
        have h2 := (ih (rstripSlash u :: seen)).2
        simp only [uniqueUrlsAux, if_neg hu, List.map_cons, List.nodup_cons]
        refine ⟨⟨fun hmem => ?_, h1⟩, ?_⟩
        · exact h2 _ hmem (List.mem_cons_self _ _)
        · intro x hx
          rcases List.mem_cons.mp hx with rfl | hx'
          · exact hu
          · intro hseen
            exact h2 x hx' (List.mem_cons_of_mem _ hseen)

theorem uniqueUrlsAux_toFinset :
    ∀ (urls : List String) (seen : List String),
      ((uniqueUrlsAux seen urls).map rstripSlash).toFinset
        = (urls.map rstripSlash).toFinset \ seen.toFinset := by
  intro urls
  induction urls with
  | nil => intro seen; simp [uniqueUrlsAux]
  | cons u rest ih =>
      intro seen
      by_cases hu : rstripSlash u ∈ seen
      · rw [show uniqueUrlsAux seen (u :: rest) = uniqueUrlsAux seen rest by
            simp [uniqueUrlsAux, hu], ih seen]
        ext x
        by_cases hx : x = rstripSlash u <;>
          simp [hx, hu, List.mem_toFinset]
      · rw [show uniqueUrlsAux seen (u :: rest)
              = u :: uniqueUrlsAux (rstripSlash u :: seen) rest by
            simp [uniqueUrlsAux, hu]]
        simp only [List.map_cons, List.toFinset_cons, ih]
        ext x
        by_cases hx : x = rstripSlash u <;>
          simp [hx, hu, List.mem_toFinset]

theorem uniqueUrlsAux_of_nodup :
    ∀ (urls : List String) (seen : List String),
      (urls.map rstripSlash).Nodup →
      (∀ x ∈ urls, rstripSlash x ∉ seen) →
      uniqueUrlsAux seen urls = urls := by
  intro urls
  induction urls with
  | nil => intro seen _ _; rfl
  | cons u rest ih =>
      intro seen hnd hdisj
      have hu : rstripSlash u ∉ seen := hdisj u (List.mem_cons_self _ _)
      have hnd' : (rest.map rstripSlash).Nodup := by
        simp only [List.map_cons, List.nodup_cons] at hnd
        exact hnd.2
      have hhead : rstripSlash u ∉ rest.map rstripSlash := by
        simp only [List.map_cons, List.nodup_cons] at hnd
        exact hnd.1
      simp only [uniqueUrlsAux, if_neg hu]
      congr 1
      apply ih _ hnd'
      intro x hx
      simp only [List.mem_cons, not_or]
      refine ⟨?_, hdisj x (List.mem_cons_of_mem _ hx)⟩
      intro hequ
      exact hhead (List.mem_map.mpr ⟨x, hx, hequ⟩)

/-- C9 counterexample: `scrape_urls` deduplicates its input by
slash-stripped URL before scraping, so for an input of length 2 whose
entries normalize to the same URL, the output has length 1 — not the input
length at the input positions. -/
theorem scrape_urls_length_counterexample :
    (scrape_urls (fun u => ScrapedContent.from_error u "boom")
        ["http://a.example", "http://a.example/"]).length = 1 ∧
    (["http://a.example", "http://a.example/"] : List String).length = 2 := by
  refine ⟨by decide, by decide⟩

/-- C9 amended: `scrape_urls` first drops every URL whose slash-stripped
form was already seen (keeping first occurrences, in input order) and then
returns the per-URL results for the retained URLs in that order.  For inputs
with pairwise distinct normalized URLs, the output is exactly the input
mapped through the per-URL scrape (order and cardinality preserved, failures
at their original position); in general the retained URLs are a sublist of
the input, pairwise distinct after normalization, covering the same
normalized URL set, and the output length is the number of distinct
normalized input URLs.  No overall batch timeout exists in the code: the
gathered tasks are awaited without any bound. -/
theorem scrape_urls_order_and_dedup (f : String → ScrapedContent)
    (urls : List String) :
    ((urls.map rstripSlash).Nodup → scrape_urls f urls = urls.map f) ∧
    scrape_urls f urls = (uniqueUrlsAux [] urls).map f ∧
    List.Sublist (uniqueUrlsAux [] urls) urls ∧
    ((uniqueUrlsAux [] urls).map rstripSlash).Nodup ∧
    ((uniqueUrlsAux [] urls).map rstripSlash).toFinset
      = (urls.map rstripSlash).toFinset ∧
    (scrape_urls f urls).length = (urls.map rstripSlash).toFinset.card := by
  refine ⟨?_, rfl, uniqueUrlsAux_sublist urls [], (uniqueUrlsAux_nodup urls []).1,
    ?_, ?_⟩
  · intro hnd
    show (uniqueUrlsAux [] urls).map f = urls.map f
    rw [uniqueUrlsAux_of_nodup urls [] hnd (by simp)]
  · rw [uniqueUrlsAux_toFinset urls []]
    simp
  · show ((uniqueUrlsAux [] urls).map f).length = (urls.map rstripSlash).toFinset.card
    rw [List.length_map]
    have h1 := List.toFinset_card_of_nodup (uniqueUrlsAux_nodup urls []).1
    rw [uniqueUrlsAux_toFinset urls []] at h1
    simp only [List.toFinset_nil, Finset.sdiff_empty] at h1
    rw [List.length_map] at h1
    exact h1.symm

/-- Witness for C9 amended: a duplicate-free input is scraped in order. -/
theorem scrape_urls_order_and_dedup_witness :
    ((["http://a.example", "http://b.example"].map rstripSlash).Nodup) ∧
    scrape_urls (fun u => ScrapedContent.from_error u "boom")
        ["http://a.example", "http://b.example"]
      = ["http://a.example", "http://b.example"].map
          (fun u => ScrapedContent.from_error u "boom") :=
  ⟨by decide,
   (scrape_urls_order_and_dedup (fun u => ScrapedContent.from_error u "boom")
      ["http://a.example", "http://b.example"]).1 (by decide)⟩

/-! ## C10: registry bijection invariant -/

theorem map_fst_swap {α β : Type} (l : List (α × β)) :
    (l.map (fun p => (p.2, p.1))).map Prod.fst = l.map Prod.snd := by
  rw [List.map_map]
  rfl

theorem mem_map_swap {α β : Type} (l : List (α × β)) (u : β) (i : α) :
    (u, i) ∈ l.map (fun p => (p.2, p.1)) ↔ (i, u) ∈ l := by
  rw [List.mem_map]
  constructor
  · rintro ⟨⟨a, b⟩, hp, heq⟩
    simp only [Prod.mk.injEq] at heq
    obtain ⟨rfl, rfl⟩ := heq
    exact hp
  · intro hp
    exact ⟨(i, u), hp, rfl⟩

theorem regInv_fresh : RegInv CitationRegistry.fresh := by
  refine ⟨rfl, ?_, ?_, ?_⟩ <;> simp [CitationRegistry.fresh]

theorem regInv_register (reg : CitationRegistry) (u ctx : String)
    (h : RegInv reg) : RegInv (register_citation reg u ctx).1 := by
  obtain ⟨h1, h2, h3, h4⟩ := h
  rcases hcase : alookup reg.url_to_id u with _ | i
  · have hnotk : u ∉ reg.url_to_id.map Prod.fst :=
      (alookup_eq_none_iff _ _).mp hcase
    have hnoturl : u ∉ reg.id_to_url.map Prod.snd := by
      rw [h1, map_fst_swap] at hnotk
      exact hnotk
    have hidnone : alookup reg.id_to_url reg.next_id = none := by
      rw [alookup_eq_none_iff, h2, List.mem_range'_1]
      omega
    have hid : aset reg.id_to_url reg.next_id u
        = reg.id_to_url ++ [(reg.next_id, u)] := aset_of_alookup_none _ hidnone
    have hurl : aset reg.url_to_id u reg.next_id
        = reg.url_to_id ++ [(u, reg.next_id)] := aset_of_alookup_none _ hcase
    simp only [register_citation, hcase]
    refine ⟨?_, ?_, ?_, ?_⟩
    · show aset reg.url_to_id u reg.next_id
        = (aset reg.id_to_url reg.next_id u).map (fun p => (p.2, p.1))
      rw [hid, hurl, List.map_append, h1]
      rfl
    · show (aset reg.id_to_url reg.next_id u).map Prod.fst
        = List.range' 1 (reg.next_id + 1 - 1)
      rw [hid, List.map_append, h2]
      have : reg.next_id + 1 - 1 = (reg.next_id - 1) + 1 := by omega
      rw [this, List.range'_1_concat]
      have : 1 + (reg.next_id - 1) = reg.next_id := by omega
      rw [this]
      rfl
    · show ((aset reg.id_to_url reg.next_id u).map Prod.snd).Nodup
      rw [hid, List.map_append]
      simp only [List.map_cons, List.map_nil]
      rw [List.nodup_append]
      refine ⟨h3, List.nodup_singleton u, ?_⟩
      intro x hx
      simp only [List.mem_singleton]
      intro hxu
      exact hnoturl (hxu ▸ hx)
    · show 1 ≤ reg.next_id + 1
      omega
  · simp only [register_citation, hcase]
    split <;> exact ⟨h1, h2, h3, h4⟩

theorem regInv_bulk (urls : List String) :
    ∀ reg : CitationRegistry, RegInv reg →
      RegInv (bulk_register_sources reg urls) := by
  induction urls with
  | nil => intro reg h; exact h
  | cons u rest ih =>
      intro reg h
      simp only [bulk_register_sources]
      by_cases hu : alookup reg.url_to_id u = none
      · simpa [hu] using ih _ (regInv_register reg u "" h)
      · simpa [hu] using ih _ h

theorem regInv_upd (reg : CitationRegistry) (cid : Nat)
    (metadata : List (String × MVal)) (h : RegInv reg) :
    RegInv (update_citation_metadata reg cid metadata) := by
  rcases hcase : alookup reg.citations cid with _ | e <;>
    simp only [update_citation_metadata, hcase] <;> exact h

theorem regInv_ops (ops : List RegistryOp) :
    ∀ reg : CitationRegistry, RegInv reg →
      RegInv (applyRegistryOps reg ops) := by
  induction ops with
  | nil => intro reg h; exact h
  | cons op rest ih =>
      intro reg h
      show RegInv (applyRegistryOps (applyRegistryOp reg op) rest)
      apply ih
      cases op with
      | reg url ctx => exact regInv_register reg url ctx h
      | bulk urls => exact regInv_bulk urls reg h
      | upd cid md => exact regInv_upd reg cid md h

theorem regInv_keys_nodup {r : CitationRegistry} (h : RegInv r) :
    (r.id_to_url.map Prod.fst).Nodup := by
  rw [h.2.1]
  exact List.nodup_range' 1 _

/-- C10: after any sequence of `register_citation`, `bulk_register_sources`
and `update_citation_metadata` calls on a fresh registry, `url_to_id` and
`id_to_url` are mutually inverse, the registered ids are exactly the
contiguous list `1, ..., next_id - 1` (in registration order), an id answers
a lookup exactly when it lies in that range, and `get_all_citation_urls`
returns the registered URLs in first-registration order without duplicates. -/
theorem citation_registry_bijection (ops : List RegistryOp) :
    (∀ (u : String) (i : Nat),
        alookup (applyRegistryOps CitationRegistry.fresh ops).url_to_id u = some i
          ↔ alookup (applyRegistryOps CitationRegistry.fresh ops).id_to_url i
              = some u) ∧
    (applyRegistryOps CitationRegistry.fresh ops).id_to_url.map Prod.fst
      = List.range' 1 ((applyRegistryOps CitationRegistry.fresh ops).next_id - 1) ∧
    (∀ i : Nat,
        (alookup (applyRegistryOps CitationRegistry.fresh ops).id_to_url i).isSome
          ↔ 1 ≤ i ∧ i < (applyRegistryOps CitationRegistry.fresh ops).next_id) ∧
    get_all_citation_urls (applyRegistryOps CitationRegistry.fresh ops)
      = (applyRegistryOps CitationRegistry.fresh ops).id_to_url.map Prod.snd ∧
    (get_all_citation_urls (applyRegistryOps CitationRegistry.fresh ops)).Nodup := by
  have hinv := regInv_ops ops CitationRegistry.fresh regInv_fresh
  set s := applyRegistryOps CitationRegistry.fresh ops with hs
  obtain ⟨h1, h2, h3, h4⟩ := hinv
  have hkeys : (s.id_to_url.map Prod.fst).Nodup := by
    rw [h2]
    exact List.nodup_range' 1 _
  have hukeys : (s.url_to_id.map Prod.fst).Nodup := by
    rw [h1, map_fst_swap]
    exact h3
  have hgall : get_all_citation_urls s = s.id_to_url.map Prod.snd := by
    rw [get_all_citation_urls]
    have hsorted : sortNat (s.id_to_url.map Prod.fst) = s.id_to_url.map Prod.fst := by
      apply sortNat_of_pairwise
      rw [h2]
      exact (List.pairwise_lt_range' 1 _ 1 (by simp)).imp le_of_lt
    rw [hsorted, map_alookup_keys _ _ hkeys]
  refine ⟨?_, h2, ?_, hgall, ?_⟩
  · intro u i
    constructor
    · intro hlook
      have hmem : (u, i) ∈ s.url_to_id := alookup_mem hlook
      rw [h1] at hmem
      exact alookup_of_mem_nodup hkeys ((mem_map_swap _ _ _).mp hmem)
    · intro hlook
      have hmem : (i, u) ∈ s.id_to_url := alookup_mem hlook
      exact alookup_of_mem_nodup hukeys (h1 ▸ (mem_map_swap _ _ _).mpr hmem)
  · intro i
    constructor
    · intro hsome
      rcases hlook : alookup s.id_to_url i with _ | u
      · rw [hlook] at hsome; simp at hsome
      · have hmem : i ∈ s.id_to_url.map Prod.fst :=
          List.mem_map.mpr ⟨(i, u), alookup_mem hlook, rfl⟩
        rw [h2, List.mem_range'_1] at hmem
        omega
    · intro hi
      rcases hlook : alookup s.id_to_url i with _ | u
      · exfalso
        have := (alookup_eq_none_iff _ _).mp hlook
        rw [h2, List.mem_range'_1] at this
        omega
      · simp
  · rw [hgall]
    exact h3


/-! ## C1: controller termination and the iteration ceiling -/

theorem runController_succ (gen : Nat → List String) (k : Nat) (s : ControllerState) :
    runController gen (k + 1) s = runController gen k (controllerStep gen s) := rfl

theorem runController_add (gen : Nat → List String) (a : Nat) :
    ∀ (b : Nat) (s : ControllerState),
      runController gen (a + b) s = runController gen b (runController gen a s) := by
  induction a with
  | zero =>
      intro b s
      rw [Nat.zero_add]
      rfl
  | succ n ih =>
      intro b s
      have hshift : n + 1 + b = (n + b) + 1 := by omega
      rw [hshift, runController_succ gen (n + b) s, ih b (controllerStep gen s),
        ← runController_succ gen n s]

/-- What every evaluation of `should_continue` actually does in the wired
graph: the key is absent, so the counter it computes is always 1, the
25-ceiling branch is never taken, and the decision is exactly
`current_depth < depth`. -/
theorem should_continue_router (s : ControllerState) :
    (should_continue none s).2 = 1 ∧
    ¬ 25 ≤ (should_continue none s).2 ∧
    (should_continue none s).1 = decide (s.current_depth < s.depth) := by
  refine ⟨?_, ?_, ?_⟩ <;>
    (simp only [should_continue, bumpIteration]
     by_cases h : s.current_depth < s.depth <;> simp [h])

/-- One full loop cycle (generate queries, search taking the `continue`
edge, reflect) computed on an explicit state. -/
theorem controller_cycle (gen : Nat → List String) (q0 : String)
    (d b0 c : Nat) (sq0 : List String) (gv0 : Nat) (hlt : c + 1 < d) :
    runController gen 3
        ⟨GraphNode.generate_queries, q0, d, b0, c, sq0, gv0⟩
      = ⟨GraphNode.generate_queries, q0, d, b0, c + 1,
          sq0 ++ (if (gen gv0).take b0 = [] ∧ q0 ≠ ""
            then [q0] else (gen gv0).take b0), gv0 + 1⟩ := by
  have hrw : ∀ t : ControllerState,
      runController gen 3 t
        = controllerStep gen (controllerStep gen (controllerStep gen t)) :=
    fun _ => rfl
  have h251 : ¬ (25 : Nat) ≤ 1 := by omega
  rw [hrw]
  simp only [controllerStep, generate_queries_body, should_continue,
    bumpIteration, hlt, h251, if_true, if_false, ite_true, ite_false,
    Bool.false_eq_true, Bool.true_eq_false, reduceIte]

/-- The last pass (generate queries, search taking the `end` edge, then the
linear report tail) computed on an explicit state. -/
theorem controller_final_pass (gen : Nat → List String) (q0 : String)
    (d b0 c : Nat) (sq0 : List String) (gv0 : Nat) (hlt : ¬ c + 1 < d) :
    (runController gen 7
        ⟨GraphNode.generate_queries, q0, d, b0, c, sq0, gv0⟩).node
      = GraphNode.report ∧
    (runController gen 7
        ⟨GraphNode.generate_queries, q0, d, b0, c, sq0, gv0⟩).current_depth
      = c + 1 := by
  have hrw : ∀ t : ControllerState,
      runController gen 7 t
        = controllerStep gen (controllerStep gen (controllerStep gen
            (controllerStep gen (controllerStep gen (controllerStep gen
              (controllerStep gen t)))))) := fun _ => rfl
  have h251 : ¬ (25 : Nat) ≤ 1 := by omega
  refine ⟨?_, ?_⟩ <;>
    (rw [hrw]
     simp only [controllerStep, generate_queries_body, should_continue,
       bumpIteration, hlt, h251, if_true, if_false, ite_true, ite_false,
       Bool.false_eq_true, Bool.true_eq_false, reduceIte])

/-- The controller loop: starting at the query-generation node with `c`
completed search passes, the run reaches the `report` node after `r` more
passes, where `c + r = depth`; the only exit is `current_depth < depth`
failing. -/
theorem controller_loop (gen : Nat → List String) (d : Nat) :
    ∀ (r c : Nat) (s : ControllerState),
      1 ≤ r → c + r = d →
      s.node = GraphNode.generate_queries → s.depth = d → s.current_depth = c →
      (runController gen (3 * r + 4) s).node = GraphNode.report ∧
      (runController gen (3 * r + 4) s).current_depth = d := by
  intro r
  induction r with
  | zero => intro c s hr; exact absurd hr (by omega)
  | succ n ih =>
      intro c s hr hm hnode hdepth hcd
      obtain ⟨node, q0, d0, b0, c0, sq0, gv0⟩ := s
      simp only at hnode hdepth hcd
      subst hnode
      subst hdepth
      subst hcd
      by_cases hn0 : n = 0
      · subst hn0
        have hlt : ¬ c0 + 1 < d0 := by omega
        have hfin := controller_final_pass gen q0 d0 b0 c0 sq0 gv0 hlt
        have h7 : 3 * 1 + 4 = 7 := rfl
        have hcd1 : c0 + 1 = d0 := by omega
        rw [h7]
        exact ⟨hfin.1, by rw [hfin.2, hcd1]⟩
      · have hlt : c0 + 1 < d0 := by omega
        have hsplit : 3 * (n + 1) + 4 = 3 + (3 * n + 4) := by ring
        rw [hsplit, runController_add gen 3 (3 * n + 4),
          controller_cycle gen q0 d0 b0 c0 sq0 gv0 hlt]
        apply ih (c0 + 1)
        · omega
        · omega
        · rfl
        · rfl
        · rfl

/-- C1: the hard iteration ceiling of `should_continue` is dead code, so the
ceiling conjunct of the claim is false of the program while the termination
and depth-counting conjuncts hold.  `iteration_count` is not a channel of
the `AgentState` schema and `should_continue` runs as a conditional-edge
router whose dict writes `StateGraph` discards, so every evaluation
observes an absent counter, computes the transient value 1, never reaches
the `25 ≤ ic` branch, and decides exactly by `current_depth < depth`.
Consequently, for every `d ≥ 1` and any query-generation behavior
(including always-empty candidate lists, which fall back to the verbatim
original query), the run reaches the `report` finish node after exactly `d`
search passes — within the claimed `d + 1`; `current_depth` counts the
passes, incremented by exactly 1 on each search step and changed by no
other node — but `should_continue` is evaluated once per pass, `d` times in
total, unbounded in the depth: at depth 30 the run does 30 passes where the
claim promises at most 25 evaluations. -/
theorem controller_ceiling_dead_code (gen : Nat → List String) (q : String)
    (d b : Nat) (hd : 1 ≤ d) :
    ((runController gen (3 * d + 5) (initControllerState q d b)).node
        = GraphNode.report ∧
     (runController gen (3 * d + 5) (initControllerState q d b)).current_depth
        = d) ∧
    (∀ s : ControllerState,
        (should_continue none s).2 = 1 ∧
        ¬ 25 ≤ (should_continue none s).2 ∧
        (should_continue none s).1 = decide (s.current_depth < s.depth)) ∧
    (∀ s : ControllerState, s.node = GraphNode.search →
        (controllerStep gen s).current_depth = s.current_depth + 1) ∧
    (∀ s : ControllerState, s.node ≠ GraphNode.search →
        (controllerStep gen s).current_depth = s.current_depth) ∧
    (∀ s : ControllerState, s.node = GraphNode.generate_queries →
        gen s.gen_visits = [] → s.query ≠ "" →
        (controllerStep gen s).subqueries = s.subqueries ++ [s.query]) ∧
    ((runController (fun _ => []) (3 * 30 + 5)
        (initControllerState "solar panel efficiency" 30 2)).current_depth
      = 30 ∧ ¬ (30 : Nat) ≤ 25) := by
  have hgenq : runController gen 1 (initControllerState q d b)
      = ⟨GraphNode.generate_queries, q, d, b, 0, [], 0⟩ := rfl
  have hsplit : 3 * d + 5 = 1 + (3 * d + 4) := by ring
  obtain ⟨hA, hB⟩ := controller_loop gen d d 0
    ⟨GraphNode.generate_queries, q, d, b, 0, [], 0⟩ hd (by omega) rfl rfl rfl
  refine ⟨⟨?_, ?_⟩, should_continue_router, ?_, ?_, ?_, ?_⟩
  · rw [hsplit, runController_add gen 1 _, hgenq]
    exact hA
  · rw [hsplit, runController_add gen 1 _, hgenq]
    exact hB
  · intro s hnode
    obtain ⟨node, q0, d0, b0, c0, sq0, gv0⟩ := s
    simp only at hnode
    subst hnode
    rfl
  · intro s hnode
    obtain ⟨node, q0, d0, b0, c0, sq0, gv0⟩ := s
    simp only at hnode
    cases node <;> first
      | exact absurd rfl hnode
      | rfl
  · intro s hnode hgen hq
    obtain ⟨node, q0, d0, b0, c0, sq0, gv0⟩ := s
    simp only at hnode hgen hq
    subst hnode
    simp [controllerStep, generate_queries_body, hgen, hq]
  · have hgenq30 : runController (fun _ => ([] : List String)) 1
        (initControllerState "solar panel efficiency" 30 2)
        = ⟨GraphNode.generate_queries, "solar panel efficiency", 30, 2, 0, [], 0⟩ :=
      rfl
    have hsplit30 : 3 * 30 + 5 = 1 + (3 * 30 + 4) := by ring
    obtain ⟨_, hB30⟩ := controller_loop (fun _ => []) 30 30 0
      ⟨GraphNode.generate_queries, "solar panel efficiency", 30, 2, 0, [], 0⟩
      (by omega) (by omega) rfl rfl rfl
    rw [hsplit30, runController_add (fun _ => []) 1 _, hgenq30]
    exact ⟨hB30, by omega⟩

/-- Witness for C1 at the failing input `depth = 30` with an always-empty
query generator: the run reaches `report` after 30 search passes, five more
than the ceiling the claim promises. -/
theorem controller_ceiling_dead_code_witness :
    (runController (fun _ => []) (3 * 30 + 5)
        (initControllerState "solar panel efficiency" 30 2)).node
      = GraphNode.report ∧
    (runController (fun _ => []) (3 * 30 + 5)
        (initControllerState "solar panel efficiency" 30 2)).current_depth = 30 :=
  (controller_ceiling_dead_code (fun _ => []) "solar panel efficiency" 30 2
    (by decide)).1

end Shandu
